import Mathlib

/-
Verification of the client-side authentication/session contract of the
Kahoot-clone frontend: the session-reading hook `useUser`
(lib/useUser.tsx) and the login submission handler `loginHandler`
(pages/auth/login.tsx).

JavaScript values and library functions that the two source functions rely
on are embedded as executable Lean definitions:
  * `Json` models the JSON-representable JavaScript values (numbers are
    restricted to integers; string escaping covers the standard
    single-character escapes, `\uXXXX` escapes are not modelled).
  * `serJson`/`jsonStringify` model `JSON.stringify`, `parseF`/`jsonParse`
    model `JSON.parse` (a fuelled recursive-descent parser; `JSON.parse`
    throws exactly when `jsonParse` returns `none`).
  * `cookieParse` models the npm `cookie` package's `parse`: segments split
    on a semicolon, a key/value split at the first equals sign, whitespace
    trimming, surrounding-double-quote stripping, first occurrence of a key
    wins (percent-decoding is modelled as the identity; no claim depends
    on it).
  * Browser state (cookie string, local storage) is passed explicitly;
    `localStorage` is an association list, `localStorage.setItem` is
    `setItem`.
-/

mutual

/-- JSON-representable JavaScript values (numbers restricted to integers). -/
inductive Json : Type where
  | null : Json
  | bool (b : Bool) : Json
  | num (n : Int) : Json
  | str (s : String) : Json
  | arr (elems : JsonArr) : Json
  | obj (fields : JsonObj) : Json

inductive JsonArr : Type where
  | nil : JsonArr
  | cons (hd : Json) (tl : JsonArr) : JsonArr

inductive JsonObj : Type where
  | nil : JsonObj
  | cons (key : String) (val : Json) (tl : JsonObj) : JsonObj

end

/-- Decimal digit to character. -/
def decChar (d : Nat) : Char :=
  if d = 0 then '0'
  else if d = 1 then '1'
  else if d = 2 then '2'
  else if d = 3 then '3'
  else if d = 4 then '4'
  else if d = 5 then '5'
  else if d = 6 then '6'
  else if d = 7 then '7'
  else if d = 8 then '8'
  else '9'

/-- Standard decimal print of a natural number (most significant digit first). -/
def printNat (n : Nat) : List Char :=
  if n = 0 then ['0'] else ((Nat.digits 10 n).map decChar).reverse

/-- `JSON.stringify` on an integer: optional minus sign, then decimal digits. -/
def serInt (n : Int) : List Char :=
  if n < 0 then '-' :: printNat n.natAbs else printNat n.natAbs

/-- `JSON.stringify` escaping of one string character. -/
def escapeChar (c : Char) : List Char :=
  if c = '"' then ['\\', '"']
  else if c = '\\' then ['\\', '\\']
  else if c = '\n' then ['\\', 'n']
  else if c = '\t' then ['\\', 't']
  else if c = '\r' then ['\\', 'r']
  else if c = Char.ofNat 8 then ['\\', 'b']
  else if c = Char.ofNat 12 then ['\\', 'f']
  else [c]

/-- `JSON.stringify` escaping of a string body. -/
def escList : List Char → List Char
  | [] => []
  | c :: cs => escapeChar c ++ escList cs

/-- The characters of the literal `null`. -/
def litNull : List Char := ['n', 'u', 'l', 'l']

/-- The characters of the literal `true`. -/
def litTrue : List Char := ['t', 'r', 'u', 'e']

/-- The characters of the literal `false`. -/
def litFalse : List Char := ['f', 'a', 'l', 's', 'e']

mutual

/-- `JSON.stringify` (compact form, no indentation), producing characters. -/
def serJson : Json → List Char
  | .null => litNull
  | .bool b => if b then litTrue else litFalse
  | .num n => serInt n
  | .str s => '"' :: escList s.data ++ ['"']
  | .arr a => '[' :: serArr a ++ [']']
  | .obj o => '\x7b' :: serObj o ++ ['\x7d']

/-- Serialize the element list of an array (no brackets). -/
def serArr : JsonArr → List Char
  | .nil => []
  | .cons h t => serJson h ++ serTail t

/-- Serialize remaining array elements, each preceded by a comma. -/
def serTail : JsonArr → List Char
  | .nil => []
  | .cons h t => ',' :: serJson h ++ serTail t

/-- Serialize the member list of an object (no braces). -/
def serObj : JsonObj → List Char
  | .nil => []
  | .cons k v t => '"' :: escList k.data ++ '"' :: ':' :: serJson v ++ serOTail t

/-- Serialize remaining object members, each preceded by a comma. -/
def serOTail : JsonObj → List Char
  | .nil => []
  | .cons k v t => ',' :: '"' :: escList k.data ++ '"' :: ':' :: serJson v ++ serOTail t

end

/-- `JSON.stringify` as a string-to-string function. -/
def jsonStringify (j : Json) : String :=
  String.mk (serJson j)

/-- JSON insignificant whitespace. -/
def isJsonWs (c : Char) : Bool :=
  c == ' ' || c == '\t' || c == '\n' || c == '\r'

/-- Skip insignificant whitespace. -/
def skipWs : List Char → List Char
  | [] => []
  | c :: s => if isJsonWs c then skipWs s else c :: s

/-- Interpretation of a single-character JSON string escape. -/
def unescape (e : Char) : Option Char :=
  if e = '"' then some '"'
  else if e = '\\' then some '\\'
  else if e = '/' then some '/'
  else if e = 'n' then some '\n'
  else if e = 't' then some '\t'
  else if e = 'r' then some '\r'
  else if e = 'b' then some (Char.ofNat 8)
  else if e = 'f' then some (Char.ofNat 12)
  else none

/-- Parse a JSON string body up to and including the closing quote. -/
def parseStrBody : List Char → Option (List Char × List Char)
  | [] => none
  | c :: rest =>
    if c = '"' then some ([], rest)
    else if c = '\\' then
      match rest with
      | [] => none
      | e :: rest2 =>
        match unescape e with
        | some c2 =>
          match parseStrBody rest2 with
          | some (cs, r) => some (c2 :: cs, r)
          | none => none
        | none => none
    else
      match parseStrBody rest with
      | some (cs, r) => some (c :: cs, r)
      | none => none

/-- Numeric value of a decimal digit character. -/
def digitVal (c : Char) : Nat := c.toNat - 48

/-- Parse a maximal run of decimal digits into a natural number. -/
def parseNatTok (s : List Char) : Option (Nat × List Char) :=
  let ds := s.takeWhile Char.isDigit
  if ds.isEmpty then none
  else some (ds.foldl (fun a c => a * 10 + digitVal c) 0, s.dropWhile Char.isDigit)

/-- Which grammar production the fuelled parser is working on. -/
inductive PMode : Type where
  | val : PMode
  | elems : PMode
  | members : PMode

/-- Result of the fuelled parser, one constructor per production. -/
inductive PRes : Type where
  | val (j : Json) : PRes
  | elems (a : JsonArr) : PRes
  | members (o : JsonObj) : PRes

/-- Recursive-descent JSON parser (the model of `JSON.parse`); the fuel
decreases on every recursive call, so the definition is structural. -/
def parseF : Nat → PMode → List Char → Option (PRes × List Char)
  | 0, _, _ => none
  | f + 1, PMode.val, input =>
    match skipWs input with
    | [] => none
    | c :: s =>
      if c = 'n' then
        match s with
        | 'u' :: 'l' :: 'l' :: r => some (PRes.val Json.null, r)
        | _ => none
      else if c = 't' then
        match s with
        | 'r' :: 'u' :: 'e' :: r => some (PRes.val (Json.bool true), r)
        | _ => none
      else if c = 'f' then
        match s with
        | 'a' :: 'l' :: 's' :: 'e' :: r => some (PRes.val (Json.bool false), r)
        | _ => none
      else if c = '"' then
        match parseStrBody s with
        | some (cs, r) => some (PRes.val (Json.str (String.mk cs)), r)
        | none => none
      else if c = '[' then
        match skipWs s with
        | ']' :: r => some (PRes.val (Json.arr JsonArr.nil), r)
        | _ =>
          match parseF f PMode.elems s with
          | some (PRes.elems a, r) => some (PRes.val (Json.arr a), r)
          | _ => none
      else if c = '\x7b' then
        match skipWs s with
        | '\x7d' :: r => some (PRes.val (Json.obj JsonObj.nil), r)
        | _ =>
          match parseF f PMode.members s with
          | some (PRes.members o, r) => some (PRes.val (Json.obj o), r)
          | _ => none
      else if c = '-' then
        match parseNatTok s with
        | some (m, r) => some (PRes.val (Json.num (-(m : Int))), r)
        | none => none
      else if c.isDigit then
        match parseNatTok (c :: s) with
        | some (m, r) => some (PRes.val (Json.num (m : Int)), r)
        | none => none
      else none
  | f + 1, PMode.elems, input =>
    match parseF f PMode.val input with
    | some (PRes.val j, r1) =>
      match skipWs r1 with
      | ',' :: r2 =>
        match parseF f PMode.elems r2 with
        | some (PRes.elems t, r3) => some (PRes.elems (JsonArr.cons j t), r3)
        | _ => none
      | ']' :: r2 => some (PRes.elems (JsonArr.cons j JsonArr.nil), r2)
      | _ => none
    | _ => none
  | f + 1, PMode.members, input =>
    match skipWs input with
    | '"' :: s =>
      match parseStrBody s with
      | some (k, r1) =>
        match skipWs r1 with
        | ':' :: r2 =>
          match parseF f PMode.val r2 with
          | some (PRes.val v, r3) =>
            match skipWs r3 with
            | ',' :: r4 =>
              match parseF f PMode.members r4 with
              | some (PRes.members o, r5) =>
                some (PRes.members (JsonObj.cons (String.mk k) v o), r5)
              | _ => none
            | '\x7d' :: r4 => some (PRes.members (JsonObj.cons (String.mk k) v JsonObj.nil), r4)
            | _ => none
          | _ => none
        | _ => none
      | none => none
    | _ => none

/-- `JSON.parse`: `none` models a thrown `SyntaxError`. -/
def jsonParse (s : String) : Option Json :=
  match parseF (s.data.length + 1) PMode.val s.data with
  | some (PRes.val j, r) => if skipWs r = [] then some j else none
  | _ => none

/-- Whitespace trimmed by `String.prototype.trim` (common cases). -/
def isTrimWs (c : Char) : Bool :=
  c == ' ' || c == '\t' || c == '\n' || c == '\r'

/-- Trim whitespace from both ends of a character list. -/
def trimChars (l : List Char) : List Char :=
  ((l.dropWhile isTrimWs).reverse.dropWhile isTrimWs).reverse

/-- Split a character list on a separator character. -/
def splitOnChar (sep : Char) : List Char → List (List Char)
  | [] => [[]]
  | c :: rest =>
    let r := splitOnChar sep rest
    if c = sep then [] :: r
    else
      match r with
      | [] => [[c]]
      | h :: t => (c :: h) :: t

/-- Split a character list at the first occurrence of a separator. -/
def splitFirst (sep : Char) : List Char → Option (List Char × List Char)
  | [] => none
  | c :: rest =>
    if c = sep then some ([], rest)
    else
      match splitFirst sep rest with
      | some (a, b) => some (c :: a, b)
      | none => none

/-- The npm `cookie` package's surrounding-quote stripping: when a value
starts with a double quote, its first and last characters are dropped. -/
def stripQuotes : List Char → List Char
  | '"' :: rest => rest.dropLast
  | l => l

/-- The npm `cookie` package's `parse`: key/value pairs from a cookie
header string; the first occurrence of a key wins. -/
def cookieParse (s : String) : List (String × String) :=
  (splitOnChar ';' s.data).foldl
    (fun acc seg =>
      match splitFirst '=' seg with
      | none => acc
      | some (k, v) =>
        let key := String.mk (trimChars k)
        match List.lookup key acc with
        | some _ => acc
        | none => acc ++ [(key, String.mk (stripQuotes (trimChars v)))])
    []

/-- Ambient browser state read by `useUser`: whether `window` is defined,
`document.cookie`, and the local-storage contents. -/
structure BrowserState where
  inBrowser : Bool
  cookieString : String
  localStorage : List (String × String)

/-- `localStorage.getItem`. -/
def getItem (store : List (String × String)) (k : String) : Option String :=
  List.lookup k store

/-- `localStorage.setItem`: overwrite the key in place or append it. -/
def setItem : List (String × String) → String → String → List (String × String)
  | [], k, v => [(k, v)]
  | (k0, v0) :: rest, k, v =>
    if k0 = k then (k, v) :: rest else (k0, v0) :: setItem rest k v

/-- Value of `useUser`'s memoized read
`typeof window !== "undefined" && localStorage.getItem("accessTokenPayload")`:
`false` outside a browser, otherwise `null` or the stored string. -/
inductive MemoVal : Type where
  | jsFalse : MemoVal
  | jsNull : MemoVal
  | jsStr (s : String) : MemoVal

/-- The memoized read performed by `useUser`. -/
def userMemo (st : BrowserState) : MemoVal :=
  if st.inBrowser then
    match getItem st.localStorage "accessTokenPayload" with
    | some s => MemoVal.jsStr s
    | none => MemoVal.jsNull
  else MemoVal.jsFalse

/-- `String(x)` coercion applied by `JSON.parse` to a non-string argument. -/
def memoToString : MemoVal → String
  | MemoVal.jsFalse => "false"
  | MemoVal.jsNull => "null"
  | MemoVal.jsStr s => s

/-- `JSON.parse` applied to the memoized read (coerced to a string first,
as JavaScript does). -/
def jsonParseJS (v : MemoVal) : Option Json :=
  jsonParse (memoToString v)

/-- The `UserState` returned by `useUser`: `user` is a JavaScript value
(`Json.null` models JavaScript `null`). -/
structure UserState where
  user : Json
  loggedIn : Bool

/-- The session-reading hook `useUser` (lib/useUser.tsx). `Except.error`
models an uncaught exception escaping the hook. -/
def useUser (st : BrowserState) : Except Unit UserState :=
  if st.inBrowser then
    let cookies := cookieParse st.cookieString
    match List.lookup "loggedIn" cookies with
    | none => Except.ok ⟨Json.null, false⟩
    | some v =>
      if v = "" then Except.ok ⟨Json.null, false⟩
      else
        match jsonParseJS (userMemo st) with
        | some j => Except.ok ⟨j, true⟩
        | none => Except.error ()
  else Except.ok ⟨Json.null, false⟩

/-- The shape of `/api/login` responses consumed by `loginHandler`
(`error: boolean`, optional `errorDescription`, optional `user` payload). -/
structure APIResponse where
  error : Bool
  errorDescription : Option String
  user : Option Json

/-- A Next.js router query parameter value: absent, a string, or an array
of strings. -/
inductive QueryVal : Type where
  | absent : QueryVal
  | str (s : String) : QueryVal
  | strList (l : List String) : QueryVal

/-- Observable effects of one `loginHandler` invocation. -/
structure HandlerResult where
  storageWrite : Option (String × String)
  navigatedTo : Option String
  errorShown : Option String
  loggedError : Bool

/-- JavaScript `x || dflt` on an optional string: the default is taken when
`x` is `undefined` or the (falsy) empty string. -/
def jsOrElse (v : Option String) (dflt : String) : String :=
  match v with
  | some s => if s = "" then dflt else s
  | none => dflt

/-- The string stored by `localStorage.setItem(k, JSON.stringify(u))`:
`JSON.stringify(undefined)` is `undefined`, which `setItem` coerces to the
string `"undefined"`. -/
def stringifySetItemArg : Option Json → String
  | some j => jsonStringify j
  | none => "undefined"

/-- The login submission handler `loginHandler` (pages/auth/login.tsx),
as a function of the redirect query parameter and of the outcome of the
awaited `postData` call (`Except.error` models a thrown transport error). -/
def loginHandler (redirectOnLogin : QueryVal) (outcome : Except Unit APIResponse) :
    HandlerResult :=
  match outcome with
  | Except.error _ =>
    { storageWrite := none
      navigatedTo := none
      errorShown := some "Failed to connect to the server. Please try again."
      loggedError := true }
  | Except.ok response =>
    if response.error = true then
      { storageWrite := none
        navigatedTo := none
        errorShown := some (jsOrElse response.errorDescription "An unexpected error occurred.")
        loggedError := false }
    else
      { storageWrite := some ("accessTokenPayload", stringifySetItemArg response.user)
        navigatedTo :=
          some (match redirectOnLogin with
                | QueryVal.str s => s
                | _ => "/")
        errorShown := none
        loggedError := false }

/-- Apply an optional storage write to a store. -/
def applyWrite (store : List (String × String)) : Option (String × String) →
    List (String × String)
  | none => store
  | some (k, v) => setItem store k v

mutual

/-- Parser fuel sufficient for a serialized value. -/
def sizeJ : Json → Nat
  | .null => 1
  | .bool _ => 1
  | .num _ => 1
  | .str _ => 1
  | .arr a => sizeA a + 1
  | .obj o => sizeO o + 1

/-- Parser fuel sufficient for a serialized element list. -/
def sizeA : JsonArr → Nat
  | .nil => 0
  | .cons h t => sizeJ h + sizeA t + 1

/-- Parser fuel sufficient for a serialized member list. -/
def sizeO : JsonObj → Nat
  | .nil => 0
  | .cons _ v t => sizeJ v + sizeO t + 1

end

/-- The continuation after a serialized value never starts with a digit
(so number parsing stops at the right place). -/
def restOk : List Char → Prop
  | [] => True
  | c :: _ => c.isDigit = false

/-- `loginHandler` outcome: the payload was persisted and navigation was
triggered, with no error shown. -/
def persistOutcome (r : HandlerResult) : Prop :=
  r.storageWrite.isSome ∧ r.navigatedTo.isSome ∧ r.errorShown = none

/-- `loginHandler` outcome: a server-reported error message was displayed
(nothing persisted, no navigation, nothing logged to the console). -/
def serverErrorOutcome (r : HandlerResult) : Prop :=
  r.errorShown.isSome ∧ r.storageWrite = none ∧ r.navigatedTo = none ∧ r.loggedError = false

/-- `loginHandler` outcome: the connection-failure message was displayed and
the thrown error was logged (nothing persisted, no navigation). -/
def transportErrorOutcome (r : HandlerResult) : Prop :=
  r.errorShown = some "Failed to connect to the server. Please try again."
    ∧ r.storageWrite = none ∧ r.navigatedTo = none ∧ r.loggedError = true

/-! ### Helper lemmas: characters, digits, decimal printing -/

theorem stringMk_data (s : String) : String.mk s.data = s := rfl

theorem skipWs_cons {c : Char} (s : List Char) (h : isJsonWs c = false) :
    skipWs (c :: s) = c :: s := by
  simp [skipWs, h]

theorem decChar_isDigit (d : Nat) : (decChar d).isDigit = true := by
  unfold decChar
  split_ifs <;> decide

theorem digitVal_decChar {d : Nat} (hd : d < 10) : digitVal (decChar d) = d := by
  interval_cases d <;> decide

theorem digit_not_ws {c : Char} (h : c.isDigit = true) : isJsonWs c = false := by
  cases hw : isJsonWs c
  · rfl
  · exfalso
    simp only [isJsonWs, Bool.or_eq_true, beq_iff_eq] at hw
    rcases hw with ((rfl | rfl) | rfl) | rfl <;> exact absurd h (by decide)

theorem ne_of_digit {c x : Char} (h : c.isDigit = true) (hx : x.isDigit = false) : c ≠ x := by
  intro he
  subst he
  rw [h] at hx
  cases hx

theorem printNat_ne_nil (n : Nat) : printNat n ≠ [] := by
  unfold printNat
  split_ifs with h
  · simp
  · simp [Nat.digits_ne_nil_iff_ne_zero, h]

theorem printNat_digits (n : Nat) : ∀ c ∈ printNat n, c.isDigit = true := by
  intro c hc
  unfold printNat at hc
  split_ifs at hc with h
  · simp at hc
    subst hc
    decide
  · rw [List.mem_reverse] at hc
    obtain ⟨d, _, rfl⟩ := List.mem_map.mp hc
    exact decChar_isDigit d

theorem foldl_digits (L : List Nat) (hL : ∀ d ∈ L, d < 10) (acc : Nat) :
    List.foldl (fun a c => a * 10 + digitVal c) acc ((L.map decChar).reverse)
      = acc * 10 ^ L.length + Nat.ofDigits 10 L := by
  induction L generalizing acc with
  | nil => simp
  | cons d L ih =>
    have hd : d < 10 := hL d (List.mem_cons_self d L)
    have hL' : ∀ x ∈ L, x < 10 := fun x hx => hL x (List.mem_cons_of_mem d hx)
    simp only [List.map_cons, List.reverse_cons, List.foldl_append, List.foldl_cons,
      List.foldl_nil]
    rw [ih hL', digitVal_decChar hd, Nat.ofDigits_cons, List.length_cons, pow_succ]
    ring

theorem pNatVal_printNat (n : Nat) :
    List.foldl (fun a c => a * 10 + digitVal c) 0 (printNat n) = n := by
  unfold printNat
  split_ifs with h
  · subst h; decide
  · rw [foldl_digits _ (fun d hd => Nat.digits_lt_base (by norm_num) hd) 0]
    simp [Nat.ofDigits_digits]

theorem digits_split {l r : List Char} (hl : ∀ c ∈ l, c.isDigit = true) (hr : restOk r) :
    (l ++ r).takeWhile Char.isDigit = l ∧ (l ++ r).dropWhile Char.isDigit = r := by
  induction l with
  | nil =>
    cases r with
    | nil => simp
    | cons c r2 =>
      have hc : c.isDigit = false := hr
      simp [List.takeWhile, List.dropWhile, hc]
  | cons c l2 ih =>
    have hc : c.isDigit = true := hl c (List.mem_cons_self _ _)
    have h2 := ih (fun x hx => hl x (List.mem_cons_of_mem _ hx))
    simp [List.takeWhile, List.dropWhile, hc, h2.1, h2.2]

theorem parseNatTok_print (n : Nat) (rest : List Char) (hr : restOk rest) :
    parseNatTok (printNat n ++ rest) = some (n, rest) := by
  obtain ⟨ht, hd⟩ := digits_split (printNat_digits n) hr
  have hne : (printNat n).isEmpty = false := by
    cases hpn : printNat n with
    | nil => exact absurd hpn (printNat_ne_nil n)
    | cons a b => rfl
  simp only [parseNatTok, ht, hd, hne]
  rw [if_neg (by simp [hne])]
  rw [pNatVal_printNat n]

theorem parseStrBody_cons_lit {c : Char} (rest : List Char) (h1 : ¬c = '"') (h2 : ¬c = '\\') :
    parseStrBody (c :: rest)
      = match parseStrBody rest with
        | some (cs, r) => some (c :: cs, r)
        | none => none := by
  conv_lhs => rw [parseStrBody.eq_def]
  simp [h1, h2]

theorem parseStrBody_quote (rest : List Char) : parseStrBody ('"' :: rest) = some ([], rest) := by
  conv_lhs => rw [parseStrBody.eq_def]
  simp

theorem parseStrBody_esc_char (e : Char) (rest : List Char) :
    parseStrBody ('\\' :: e :: rest)
      = match unescape e with
        | some c2 =>
          (match parseStrBody rest with
            | some (cs, r) => some (c2 :: cs, r)
            | none => none)
        | none => none := by
  conv_lhs => rw [parseStrBody.eq_def]
  simp

theorem parseStrBody_esc (l : List Char) (rest : List Char) :
    parseStrBody (escList l ++ '"' :: rest) = some (l, rest) := by
  induction l with
  | nil =>
    simp only [escList, List.nil_append]
    exact parseStrBody_quote rest
  | cons c cs ih =>
    simp only [escList, List.append_assoc]
    unfold escapeChar
    split_ifs with h1 h2 h3 h4 h5 h6 h7
    · subst h1
      simp only [List.cons_append, List.nil_append]
      rw [parseStrBody_esc_char]
      simp [unescape, ih]
    · subst h2
      simp only [List.cons_append, List.nil_append]
      rw [parseStrBody_esc_char]
      simp [unescape, ih]
    · subst h3
      simp only [List.cons_append, List.nil_append]
      rw [parseStrBody_esc_char]
      simp [unescape, ih]
    · subst h4
      simp only [List.cons_append, List.nil_append]
      rw [parseStrBody_esc_char]
      simp [unescape, ih]
    · subst h5
      simp only [List.cons_append, List.nil_append]
      rw [parseStrBody_esc_char]
      simp [unescape, ih]
    · subst h6
      simp only [List.cons_append, List.nil_append]
      rw [parseStrBody_esc_char]
      simp [unescape, ih]
    · subst h7
      simp only [List.cons_append, List.nil_append]
      rw [parseStrBody_esc_char]
      simp [unescape, ih]
    · simp only [List.singleton_append]
      rw [parseStrBody_cons_lit _ h1 h2, ih]

theorem lookup_setItem (store : List (String × String)) (k v : String) :
    List.lookup k (setItem store k v) = some v := by
  induction store with
  | nil => simp [setItem, List.lookup]
  | cons hd tl ih =>
    obtain ⟨k0, v0⟩ := hd
    by_cases hk : k0 = k
    · subst hk
      simp [setItem, List.lookup]
    · have hb : (k == k0) = false := beq_eq_false_iff_ne.mpr (Ne.symm hk)
      simp [setItem, hk, List.lookup, hb, ih]

/-! ### Unfolding lemmas for the parser -/

theorem parseF_arr_open (f : Nat) (s : List Char) :
    parseF (f + 1) PMode.val ('[' :: s)
      = match skipWs s with
        | ']' :: r => some (PRes.val (Json.arr JsonArr.nil), r)
        | _ =>
          match parseF f PMode.elems s with
          | some (PRes.elems a, r) => some (PRes.val (Json.arr a), r)
          | _ => none := by
  simp [parseF, skipWs, isJsonWs]

theorem parseF_obj_open (f : Nat) (s : List Char) :
    parseF (f + 1) PMode.val ('\x7b' :: s)
      = match skipWs s with
        | '\x7d' :: r => some (PRes.val (Json.obj JsonObj.nil), r)
        | _ =>
          match parseF f PMode.members s with
          | some (PRes.members o, r) => some (PRes.val (Json.obj o), r)
          | _ => none := by
  simp [parseF, skipWs, isJsonWs]

theorem parseF_quote (f : Nat) (s : List Char) :
    parseF (f + 1) PMode.val ('"' :: s)
      = match parseStrBody s with
        | some (cs, r) => some (PRes.val (Json.str (String.mk cs)), r)
        | none => none := by
  simp [parseF, skipWs, isJsonWs]

theorem parseF_minus (f : Nat) (s : List Char) :
    parseF (f + 1) PMode.val ('-' :: s)
      = match parseNatTok s with
        | some (m, r) => some (PRes.val (Json.num (-(m : Int))), r)
        | none => none := by
  simp [parseF, skipWs, isJsonWs]

theorem parseF_digitHead (f : Nat) {c : Char} (s : List Char) (hc : c.isDigit = true) :
    parseF (f + 1) PMode.val (c :: s)
      = match parseNatTok (c :: s) with
        | some (m, r) => some (PRes.val (Json.num (m : Int)), r)
        | none => none := by
  simp only [parseF]
  rw [skipWs_cons _ (digit_not_ws hc)]
  simp only [if_neg (ne_of_digit hc (by decide : ('n').isDigit = false)),
    if_neg (ne_of_digit hc (by decide : ('t').isDigit = false)),
    if_neg (ne_of_digit hc (by decide : ('f').isDigit = false)),
    if_neg (ne_of_digit hc (by decide : ('"').isDigit = false)),
    if_neg (ne_of_digit hc (by decide : ('[').isDigit = false)),
    if_neg (ne_of_digit hc (by decide : ('\x7b').isDigit = false)),
    if_neg (ne_of_digit hc (by decide : ('-').isDigit = false)),
    if_pos hc]

theorem parseF_elems_eq (f : Nat) (input : List Char) :
    parseF (f + 1) PMode.elems input
      = match parseF f PMode.val input with
        | some (PRes.val j, r1) =>
          (match skipWs r1 with
            | ',' :: r2 =>
              (match parseF f PMode.elems r2 with
                | some (PRes.elems t, r3) => some (PRes.elems (JsonArr.cons j t), r3)
                | _ => none)
            | ']' :: r2 => some (PRes.elems (JsonArr.cons j JsonArr.nil), r2)
            | _ => none)
        | _ => none := by
  simp [parseF]

theorem parseF_members_quote (f : Nat) (s : List Char) :
    parseF (f + 1) PMode.members ('"' :: s)
      = match parseStrBody s with
        | some (k, r1) =>
          (match skipWs r1 with
            | ':' :: r2 =>
              (match parseF f PMode.val r2 with
                | some (PRes.val v, r3) =>
                  (match skipWs r3 with
                    | ',' :: r4 =>
                      (match parseF f PMode.members r4 with
                        | some (PRes.members o, r5) =>
                          some (PRes.members (JsonObj.cons (String.mk k) v o), r5)
                        | _ => none)
                    | '\x7d' :: r4 =>
                      some (PRes.members (JsonObj.cons (String.mk k) v JsonObj.nil), r4)
                    | _ => none)
                | _ => none)
            | _ => none)
        | none => none := by
  simp [parseF, skipWs, isJsonWs]

/-! ### Head shape of serialized values; fuel bounds -/

theorem serJson_head (j : Json) :
    ∃ c cs, serJson j = c :: cs ∧ isJsonWs c = false ∧ c ≠ ']' ∧ c ≠ '\x7d' := by
  cases j with
  | null =>
    exact ⟨'n', ['u', 'l', 'l'], by simp [serJson, litNull], by decide, by decide, by decide⟩
  | bool b =>
    cases b with
    | true =>
      exact ⟨'t', ['r', 'u', 'e'], by simp [serJson, litTrue], by decide, by decide, by decide⟩
    | false =>
      exact ⟨'f', ['a', 'l', 's', 'e'], by simp [serJson, litFalse], by decide, by decide,
        by decide⟩
  | num n =>
    by_cases hn : n < 0
    · exact ⟨'-', printNat n.natAbs, by simp [serJson, serInt, hn], by decide, by decide, by decide⟩
    · obtain ⟨c, cs, hpc⟩ : ∃ c cs, printNat n.natAbs = c :: cs := by
        cases hp : printNat n.natAbs with
        | nil => exact absurd hp (printNat_ne_nil _)
        | cons a b => exact ⟨a, b, rfl⟩
      have hcd : c.isDigit = true :=
        printNat_digits _ c (by rw [hpc]; exact List.mem_cons_self _ _)
      exact ⟨c, cs, by simp [serJson, serInt, hn, hpc], digit_not_ws hcd,
        ne_of_digit hcd (by decide : (']').isDigit = false),
        ne_of_digit hcd (by decide : ('\x7d').isDigit = false)⟩
  | str s =>
    exact ⟨'"', escList s.data ++ ['"'], by simp [serJson], by decide, by decide, by decide⟩
  | arr a => exact ⟨'[', serArr a ++ [']'], by simp [serJson], by decide, by decide, by decide⟩
  | obj o => exact ⟨'\x7b', serObj o ++ ['\x7d'], by simp [serJson], by decide, by decide, by decide⟩

theorem restOk_serTail (t : JsonArr) (r : List Char) : restOk (serTail t ++ (']' :: r)) := by
  cases t with
  | nil =>
    simp only [serTail, List.nil_append]
    exact (by decide : (']').isDigit = false)
  | cons h2 t2 =>
    simp only [serTail, List.cons_append]
    exact (by decide : (',').isDigit = false)

theorem restOk_serOTail (t : JsonObj) (r : List Char) : restOk (serOTail t ++ ('\x7d' :: r)) := by
  cases t with
  | nil =>
    simp only [serOTail, List.nil_append]
    exact (by decide : ('\x7d').isDigit = false)
  | cons k2 v2 t2 =>
    simp only [serOTail, List.cons_append]
    exact (by decide : (',').isDigit = false)

mutual

theorem szJ (j : Json) : sizeJ j ≤ (serJson j).length := by
  cases j with
  | null => simp [sizeJ, serJson, litNull]
  | bool b => cases b <;> simp [sizeJ, serJson, litTrue, litFalse]
  | num n =>
    simp only [sizeJ, serJson, serInt]
    split_ifs
    · simp
    · exact List.length_pos.mpr (printNat_ne_nil _)
  | str s => simp [sizeJ, serJson]
  | arr a =>
    cases a with
    | nil => simp [sizeJ, sizeA, serJson, serArr]
    | cons h t =>
      have h1 := szJ h
      have h2 := szA t
      simp only [sizeJ, sizeA, serJson, serArr, List.length_cons, List.length_append]
      omega
  | obj o =>
    cases o with
    | nil => simp [sizeJ, sizeO, serJson, serObj]
    | cons k v t =>
      have h1 := szJ v
      have h2 := szO t
      simp only [sizeJ, sizeO, serJson, serObj, List.length_cons, List.length_append]
      omega

theorem szA (t : JsonArr) : sizeA t ≤ (serTail t).length := by
  cases t with
  | nil => simp [sizeA, serTail]
  | cons h t2 =>
    have h1 := szJ h
    have h2 := szA t2
    simp only [sizeA, serTail, List.length_cons, List.length_append]
    omega

theorem szO (t : JsonObj) : sizeO t ≤ (serOTail t).length := by
  cases t with
  | nil => simp [sizeO, serOTail]
  | cons k v t2 =>
    have h1 := szJ v
    have h2 := szO t2
    simp only [sizeO, serOTail, List.length_cons, List.length_append]
    omega

end

/-! ### Round trip: parsing a serialized value -/

theorem parseF_elems_step (f : Nat) (input r1 : List Char) (j : Json)
    (hv : parseF f PMode.val input = some (PRes.val j, r1)) :
    parseF (f + 1) PMode.elems input
      = match skipWs r1 with
        | ',' :: r2 =>
          (match parseF f PMode.elems r2 with
            | some (PRes.elems t, r3) => some (PRes.elems (JsonArr.cons j t), r3)
            | _ => none)
        | ']' :: r2 => some (PRes.elems (JsonArr.cons j JsonArr.nil), r2)
        | _ => none := by
  rw [parseF_elems_eq, hv]

mutual

theorem pvRound (j : Json) : ∀ (fuel : Nat) (rest : List Char), restOk rest →
    parseF (fuel + sizeJ j) PMode.val (serJson j ++ rest) = some (PRes.val j, rest) := by
  intro fuel rest hr
  cases j with
  | null => simp [sizeJ, serJson, litNull, parseF, skipWs, isJsonWs]
  | bool b => cases b <;> simp [sizeJ, serJson, litTrue, litFalse, parseF, skipWs, isJsonWs]
  | num n =>
    by_cases hn : n < 0
    · rw [show serJson (Json.num n) = '-' :: printNat n.natAbs from by simp [serJson, serInt, hn]]
      rw [show fuel + sizeJ (Json.num n) = fuel + 1 from by simp [sizeJ]]
      rw [List.cons_append, parseF_minus, parseNatTok_print n.natAbs rest hr]
      have he : -((n.natAbs : Int)) = n := by omega
      show some (PRes.val (Json.num (-((n.natAbs : Int)))), rest)
        = some (PRes.val (Json.num n), rest)
      rw [he]
    · obtain ⟨c, cs, hpc⟩ : ∃ c cs, printNat n.natAbs = c :: cs := by
        cases hp : printNat n.natAbs with
        | nil => exact absurd hp (printNat_ne_nil _)
        | cons a b => exact ⟨a, b, rfl⟩
      have hcd : c.isDigit = true :=
        printNat_digits _ c (by rw [hpc]; exact List.mem_cons_self _ _)
      rw [show serJson (Json.num n) = printNat n.natAbs from by simp [serJson, serInt, hn]]
      rw [show fuel + sizeJ (Json.num n) = fuel + 1 from by simp [sizeJ]]
      rw [hpc, List.cons_append, parseF_digitHead fuel _ hcd, ← List.cons_append, ← hpc,
        parseNatTok_print n.natAbs rest hr]
      have he : ((n.natAbs : Int)) = n := by omega
      show some (PRes.val (Json.num ((n.natAbs : Int))), rest)
        = some (PRes.val (Json.num n), rest)
      rw [he]
  | str s =>
    rw [show fuel + sizeJ (Json.str s) = fuel + 1 from by simp [sizeJ]]
    rw [show serJson (Json.str s) ++ rest = '"' :: (escList s.data ++ '"' :: rest) from by
      simp [serJson]]
    rw [parseF_quote, parseStrBody_esc]
  | arr a =>
    cases a with
    | nil =>
      rw [show fuel + sizeJ (Json.arr JsonArr.nil) = fuel + 1 from by simp [sizeJ, sizeA]]
      rw [show serJson (Json.arr JsonArr.nil) ++ rest = '[' :: (']' :: rest) from by
        simp [serJson, serArr]]
      rw [parseF_arr_open, skipWs_cons _ (by decide)]
      rfl
    | cons h t =>
      rw [show fuel + sizeJ (Json.arr (JsonArr.cons h t))
          = (fuel + sizeA (JsonArr.cons h t)) + 1 from by simp only [sizeJ]; omega]
      rw [show serJson (Json.arr (JsonArr.cons h t)) ++ rest
          = '[' :: (serJson h ++ (serTail t ++ (']' :: rest))) from by simp [serJson, serArr]]
      rw [parseF_arr_open]
      obtain ⟨c, cs, hpc, hws, hne1, hne2⟩ := serJson_head h
      rw [show serJson h ++ (serTail t ++ (']' :: rest))
          = c :: (cs ++ (serTail t ++ (']' :: rest))) from by rw [hpc]; simp]
      rw [skipWs_cons _ hws]
      split
      · next r heq =>
        injection heq with hc ht
        exact absurd hc hne1
      · next hno =>
        rw [show c :: (cs ++ (serTail t ++ (']' :: rest)))
            = serJson h ++ (serTail t ++ (']' :: rest)) from by rw [hpc]; simp]
        rw [peRound h t fuel rest hr]
  | obj o =>
    cases o with
    | nil =>
      rw [show fuel + sizeJ (Json.obj JsonObj.nil) = fuel + 1 from by simp [sizeJ, sizeO]]
      rw [show serJson (Json.obj JsonObj.nil) ++ rest = '\x7b' :: ('\x7d' :: rest) from by
        simp [serJson, serObj]]
      rw [parseF_obj_open, skipWs_cons _ (by decide)]
      rfl
    | cons k v t =>
      rw [show fuel + sizeJ (Json.obj (JsonObj.cons k v t))
          = (fuel + sizeO (JsonObj.cons k v t)) + 1 from by simp only [sizeJ]; omega]
      rw [show serJson (Json.obj (JsonObj.cons k v t)) ++ rest
          = '\x7b' :: ('"' :: (escList k.data
              ++ ('"' :: (':' :: (serJson v ++ (serOTail t ++ ('\x7d' :: rest)))))))
          from by simp [serJson, serObj]]
      rw [parseF_obj_open, skipWs_cons _ (by decide)]
      split
      · next r heq =>
        injection heq with hc ht
        exact absurd hc (by decide)
      · next hno =>
        rw [poRound k v t fuel rest hr]
termination_by sizeOf j
decreasing_by all_goals (simp_wf; try (first | omega | (simp; omega) | simp))

theorem peRound (h : Json) (t : JsonArr) : ∀ (fuel : Nat) (rest : List Char), restOk rest →
    parseF (fuel + sizeA (JsonArr.cons h t)) PMode.elems (serJson h ++ (serTail t ++ (']' :: rest)))
      = some (PRes.elems (JsonArr.cons h t), rest) := by
  intro fuel rest hr
  rw [show fuel + sizeA (JsonArr.cons h t) = (fuel + (sizeJ h + sizeA t)) + 1 from by
    simp only [sizeA]; omega]
  have hhead : parseF (fuel + (sizeJ h + sizeA t)) PMode.val
      (serJson h ++ (serTail t ++ (']' :: rest))) = some (PRes.val h, serTail t ++ (']' :: rest)) := by
    rw [show fuel + (sizeJ h + sizeA t) = (fuel + sizeA t) + sizeJ h from by omega]
    exact pvRound h (fuel + sizeA t) _ (restOk_serTail t rest)
  rw [parseF_elems_step _ _ _ _ hhead]
  cases t with
  | nil =>
    simp only [serTail, List.nil_append]
    rw [skipWs_cons _ (by decide)]
    rfl
  | cons h2 t2 =>
    have htail : parseF (fuel + (sizeJ h + sizeA (JsonArr.cons h2 t2))) PMode.elems
        (serJson h2 ++ (serTail t2 ++ (']' :: rest)))
        = some (PRes.elems (JsonArr.cons h2 t2), rest) := by
      rw [show fuel + (sizeJ h + sizeA (JsonArr.cons h2 t2))
          = (fuel + sizeJ h) + sizeA (JsonArr.cons h2 t2) from by omega]
      exact peRound h2 t2 (fuel + sizeJ h) rest hr
    simp only [serTail, List.cons_append, List.append_assoc]
    rw [skipWs_cons _ (by decide)]
    simp [htail]
termination_by 1 + sizeOf h + sizeOf t
decreasing_by all_goals (simp_wf; try (first | omega | (simp; omega) | simp))

theorem poRound (k : String) (v : Json) (t : JsonObj) :
    ∀ (fuel : Nat) (rest : List Char), restOk rest →
    parseF (fuel + sizeO (JsonObj.cons k v t)) PMode.members
      ('"' :: (escList k.data ++ ('"' :: (':' :: (serJson v ++ (serOTail t ++ ('\x7d' :: rest)))))))
      = some (PRes.members (JsonObj.cons k v t), rest) := by
  intro fuel rest hr
  rw [show fuel + sizeO (JsonObj.cons k v t) = (fuel + (sizeJ v + sizeO t)) + 1 from by
    simp only [sizeO]; omega]
  rw [parseF_members_quote]
  rw [show escList k.data ++ ('"' :: (':' :: (serJson v ++ (serOTail t ++ ('\x7d' :: rest)))))
      = escList k.data ++ '"' :: (':' :: (serJson v ++ (serOTail t ++ ('\x7d' :: rest))))
      from by simp]
  rw [parseStrBody_esc]
  have hval : parseF (fuel + (sizeJ v + sizeO t)) PMode.val
      (serJson v ++ (serOTail t ++ ('\x7d' :: rest)))
      = some (PRes.val v, serOTail t ++ ('\x7d' :: rest)) := by
    rw [show fuel + (sizeJ v + sizeO t) = (fuel + sizeO t) + sizeJ v from by omega]
    exact pvRound v (fuel + sizeO t) _ (restOk_serOTail t rest)
  cases t with
  | nil =>
    simp only [serOTail, List.nil_append] at hval ⊢
    simp [skipWs, isJsonWs, hval, stringMk_data]
  | cons k2 v2 t2 =>
    have htail : parseF (fuel + (sizeJ v + sizeO (JsonObj.cons k2 v2 t2))) PMode.members
        ('"' :: (escList k2.data ++ ('"' :: (':' :: (serJson v2
            ++ (serOTail t2 ++ ('\x7d' :: rest)))))))
        = some (PRes.members (JsonObj.cons k2 v2 t2), rest) := by
      rw [show fuel + (sizeJ v + sizeO (JsonObj.cons k2 v2 t2))
          = (fuel + sizeJ v) + sizeO (JsonObj.cons k2 v2 t2) from by omega]
      exact poRound k2 v2 t2 (fuel + sizeJ v) rest hr
    simp only [serOTail, List.cons_append, List.append_assoc] at hval ⊢
    simp [skipWs, isJsonWs, hval, htail, stringMk_data]
termination_by 1 + sizeOf v + sizeOf t
decreasing_by all_goals (simp_wf; try (first | omega | (simp; omega) | simp))

end

theorem jsonParse_stringify (j : Json) : jsonParse (jsonStringify j) = some j := by
  unfold jsonParse jsonStringify
  rw [show (String.mk (serJson j)).data = serJson j from rfl]
  have hsz := szJ j
  rw [show (serJson j).length + 1 = ((serJson j).length + 1 - sizeJ j) + sizeJ j from by omega]
  have h := pvRound j ((serJson j).length + 1 - sizeJ j) [] trivial
  rw [List.append_nil] at h
  rw [h]
  rfl

/-! ### The claims -/

/-- C1: for every cookie string in which the "loggedIn" cookie is absent and for
every local-storage content, `useUser` run in a browser context returns the
LoggedOut value `{ user: null, loggedIn: false }`. -/
theorem C1_absent_cookie_loggedOut (ck : String) (store : List (String × String))
    (h : List.lookup "loggedIn" (cookieParse ck) = none) :
    useUser ⟨true, ck, store⟩ = Except.ok ⟨Json.null, false⟩ := by
  simp [useUser, h]

theorem C1_witness :
    List.lookup "loggedIn" (cookieParse "theme=dark; foo=bar") = none
      ∧ useUser ⟨true, "theme=dark; foo=bar", [("accessTokenPayload", "junk")]⟩
        = Except.ok ⟨Json.null, false⟩ :=
  ⟨rfl, C1_absent_cookie_loggedOut "theme=dark; foo=bar" [("accessTokenPayload", "junk")] rfl⟩

/-- C2: for every successful login response (error flag false) carrying user
payload P, after `loginHandler` completes, local storage holds exactly the JSON
serialization of P under the key "accessTokenPayload". -/
theorem C2_success_persists_serialization (q : QueryVal) (resp : APIResponse) (P : Json)
    (store : List (String × String)) (he : resp.error = false) (hu : resp.user = some P) :
    List.lookup "accessTokenPayload"
      (applyWrite store (loginHandler q (Except.ok resp)).storageWrite)
      = some (jsonStringify P) := by
  simp [loginHandler, he, hu, stringifySetItemArg, applyWrite, lookup_setItem]

theorem C2_witness :
    List.lookup "accessTokenPayload"
      (applyWrite [] (loginHandler QueryVal.absent
        (Except.ok ⟨false, none, some Json.null⟩)).storageWrite)
      = some (jsonStringify Json.null) :=
  C2_success_persists_serialization QueryVal.absent ⟨false, none, some Json.null⟩ Json.null []
    rfl rfl

/-- C3: round trip across the two components: after a successful `loginHandler`
submission with payload P performs its storage write, a `useUser` call in a
browser whose "loggedIn" cookie is present and truthy returns LoggedIn with a
user value equal to P (parsing the stored serialization recovers P). -/
theorem C3_login_then_useUser_roundtrip (q : QueryVal) (resp : APIResponse) (P : Json)
    (store : List (String × String)) (ck k v w : String)
    (he : resp.error = false) (hu : resp.user = some P)
    (hw : (loginHandler q (Except.ok resp)).storageWrite = some (k, v))
    (hck : List.lookup "loggedIn" (cookieParse ck) = some w) (hwne : w ≠ "") :
    useUser ⟨true, ck, setItem store k v⟩ = Except.ok ⟨P, true⟩ := by
  have hkv : k = "accessTokenPayload" ∧ v = jsonStringify P := by
    simp [loginHandler, he, hu, stringifySetItemArg] at hw
    exact ⟨hw.1.symm, hw.2.symm⟩
  obtain ⟨hk1, hk2⟩ := hkv
  subst hk1
  subst hk2
  have hmemo : userMemo ⟨true, ck, setItem store "accessTokenPayload" (jsonStringify P)⟩
      = MemoVal.jsStr (jsonStringify P) := by
    simp [userMemo, getItem, lookup_setItem]
  have hp : jsonParseJS (MemoVal.jsStr (jsonStringify P)) = some P := by
    simp [jsonParseJS, memoToString, jsonParse_stringify]
  simp [useUser, hck, hwne, hmemo, hp]

theorem C3_witness :
    useUser ⟨true, "loggedIn=true", setItem [] "accessTokenPayload" (jsonStringify Json.null)⟩
      = Except.ok ⟨Json.null, true⟩ :=
  C3_login_then_useUser_roundtrip QueryVal.absent ⟨false, none, some Json.null⟩ Json.null []
    "loggedIn=true" "accessTokenPayload" (jsonStringify Json.null) "true"
    rfl rfl rfl rfl (by decide)

/-- C4: every `loginHandler` invocation produces exactly one of the three
outcomes (persist and navigate / server-reported error shown / connection
failure shown); in particular no invocation both writes the session key and
shows an error message. -/
theorem C4_exactly_one_outcome (q : QueryVal) (outcome : Except Unit APIResponse) :
    ((persistOutcome (loginHandler q outcome)
        ∧ ¬serverErrorOutcome (loginHandler q outcome)
        ∧ ¬transportErrorOutcome (loginHandler q outcome))
      ∨ (¬persistOutcome (loginHandler q outcome)
        ∧ serverErrorOutcome (loginHandler q outcome)
        ∧ ¬transportErrorOutcome (loginHandler q outcome))
      ∨ (¬persistOutcome (loginHandler q outcome)
        ∧ ¬serverErrorOutcome (loginHandler q outcome)
        ∧ transportErrorOutcome (loginHandler q outcome)))
    ∧ ¬((loginHandler q outcome).storageWrite.isSome
        ∧ (loginHandler q outcome).errorShown.isSome) := by
  cases outcome with
  | error e =>
    refine ⟨Or.inr (Or.inr ⟨?_, ?_, ?_⟩), ?_⟩ <;>
      simp [loginHandler, persistOutcome, serverErrorOutcome, transportErrorOutcome]
  | ok resp =>
    by_cases he : resp.error = true
    · refine ⟨Or.inr (Or.inl ⟨?_, ?_, ?_⟩), ?_⟩ <;>
        simp [loginHandler, he, persistOutcome, serverErrorOutcome, transportErrorOutcome]
    · refine ⟨Or.inl ⟨?_, ?_, ?_⟩, ?_⟩ <;>
        simp [loginHandler, he, persistOutcome, serverErrorOutcome, transportErrorOutcome]

/-- C5: on a successful login, if the "redirectOnLogin" query parameter is a
string the handler navigates to it; otherwise (absent or an array) it navigates
to the root path "/". -/
theorem C5_redirect_target (resp : APIResponse) (he : resp.error = false) :
    (∀ s, (loginHandler (QueryVal.str s) (Except.ok resp)).navigatedTo = some s)
    ∧ (loginHandler QueryVal.absent (Except.ok resp)).navigatedTo = some "/"
    ∧ (∀ l, (loginHandler (QueryVal.strList l) (Except.ok resp)).navigatedTo = some "/") := by
  refine ⟨fun s => ?_, ?_, fun l => ?_⟩ <;> simp [loginHandler, he]

theorem C5_witness :
    (loginHandler (QueryVal.str "/dashboard") (Except.ok ⟨false, none, none⟩)).navigatedTo
        = some "/dashboard"
      ∧ (loginHandler QueryVal.absent (Except.ok ⟨false, none, none⟩)).navigatedTo = some "/" :=
  ⟨(C5_redirect_target ⟨false, none, none⟩ rfl).1 "/dashboard",
   (C5_redirect_target ⟨false, none, none⟩ rfl).2.1⟩

/-- C6 counterexample: a response with error flag true that supplies the empty
string as errorDescription displays the generic fallback, not the supplied
description, so the claim as stated fails. -/
theorem C6_counterexample :
    (loginHandler QueryVal.absent
        (Except.ok ⟨true, some "", none⟩)).errorShown ≠ some ""
      ∧ (loginHandler QueryVal.absent
        (Except.ok ⟨true, some "", none⟩)).errorShown
        = some "An unexpected error occurred." := by
  constructor
  · decide
  · rfl

/-- C6 (amended): on a response with error flag true, a missing or empty
errorDescription displays the generic fallback "An unexpected error occurred.";
a non-empty errorDescription is displayed as is. -/
theorem C6_amended_error_message (q : QueryVal) (resp : APIResponse) (he : resp.error = true) :
    (resp.errorDescription = none →
      (loginHandler q (Except.ok resp)).errorShown = some "An unexpected error occurred.")
    ∧ (∀ d, resp.errorDescription = some d → d ≠ "" →
      (loginHandler q (Except.ok resp)).errorShown = some d)
    ∧ (resp.errorDescription = some "" →
      (loginHandler q (Except.ok resp)).errorShown = some "An unexpected error occurred.") := by
  refine ⟨fun h => ?_, fun d hd hne => ?_, fun h => ?_⟩
  · simp [loginHandler, he, h, jsOrElse]
  · simp [loginHandler, he, hd, jsOrElse, hne]
  · simp [loginHandler, he, h, jsOrElse]

theorem C6_witness :
    (loginHandler QueryVal.absent (Except.ok ⟨true, none, none⟩)).errorShown
        = some "An unexpected error occurred."
      ∧ (loginHandler QueryVal.absent
          (Except.ok ⟨true, some "Invalid credentials", none⟩)).errorShown
        = some "Invalid credentials" :=
  ⟨(C6_amended_error_message QueryVal.absent ⟨true, none, none⟩ rfl).1 rfl,
   (C6_amended_error_message QueryVal.absent ⟨true, some "Invalid credentials", none⟩ rfl).2.1
     "Invalid credentials" rfl (by decide)⟩

/-- C7: on a transport failure (the request throws), the displayed message is
the fixed connection-failure string, the error is logged, and no local-storage
write or navigation occurs. -/
theorem C7_transport_failure_effects (q : QueryVal) :
    loginHandler q (Except.error ())
      = { storageWrite := none, navigatedTo := none,
          errorShown := some "Failed to connect to the server. Please try again.",
          loggedError := true } := rfl

/-- C8: when the "loggedIn" cookie is present and truthy but the stored
"accessTokenPayload" string is not valid JSON, `useUser` fails with an uncaught
parse error instead of returning a session state. -/
theorem C8_malformed_payload_throws (ck w s : String) (store : List (String × String))
    (hck : List.lookup "loggedIn" (cookieParse ck) = some w) (hwne : w ≠ "")
    (hs : getItem store "accessTokenPayload" = some s) (hbad : jsonParse s = none) :
    useUser ⟨true, ck, store⟩ = Except.error () := by
  have hmemo : userMemo ⟨true, ck, store⟩ = MemoVal.jsStr s := by
    simp [userMemo, hs]
  have hp : jsonParseJS (MemoVal.jsStr s) = none := by
    simpa [jsonParseJS, memoToString] using hbad
  simp [useUser, hck, hwne, hmemo, hp]

theorem C8_witness :
    useUser ⟨true, "loggedIn=true", [("accessTokenPayload", "nope")]⟩ = Except.error () :=
  C8_malformed_payload_throws "loggedIn=true" "true" "nope" [("accessTokenPayload", "nope")]
    rfl (by decide) rfl rfl

/-- C9: when the "loggedIn" cookie is present (non-empty) but nothing is stored
under "accessTokenPayload", `useUser` returns `{ loggedIn: true, user: null }`
(JSON.parse of the null memoized read yields null; no exception on this path). -/
theorem C9_missing_payload_loggedIn_null (ck w : String) (store : List (String × String))
    (hck : List.lookup "loggedIn" (cookieParse ck) = some w) (hwne : w ≠ "")
    (hs : getItem store "accessTokenPayload" = none) :
    useUser ⟨true, ck, store⟩ = Except.ok ⟨Json.null, true⟩ := by
  have hmemo : userMemo ⟨true, ck, store⟩ = MemoVal.jsNull := by
    simp [userMemo, hs]
  have hp : jsonParseJS MemoVal.jsNull = some Json.null := by rfl
  simp [useUser, hck, hwne, hmemo, hp]

theorem C9_witness :
    useUser ⟨true, "loggedIn=true", []⟩ = Except.ok ⟨Json.null, true⟩ :=
  C9_missing_payload_loggedIn_null "loggedIn=true" "true" [] rfl (by decide) rfl

/-- C10: the cookie check uses string truthiness: an absent "loggedIn" cookie or
one parsing to the empty string yields LoggedOut; any non-empty parsed value —
including "false" and "0" — takes the LoggedIn branch. -/
theorem C10_cookie_truthiness (ck : String) (store : List (String × String)) :
    ((List.lookup "loggedIn" (cookieParse ck) = none
        ∨ List.lookup "loggedIn" (cookieParse ck) = some "") →
      useUser ⟨true, ck, store⟩ = Except.ok ⟨Json.null, false⟩)
    ∧ (∀ w, List.lookup "loggedIn" (cookieParse ck) = some w → w ≠ "" →
      useUser ⟨true, ck, store⟩ = Except.error ()
        ∨ ∃ j, useUser ⟨true, ck, store⟩ = Except.ok ⟨j, true⟩) := by
  constructor
  · rintro (h | h) <;> simp [useUser, h]
  · intro w hw hne
    cases hp : jsonParseJS (userMemo ⟨true, ck, store⟩) with
    | none =>
      left
      simp [useUser, hw, hne, hp]
    | some j =>
      right
      exact ⟨j, by simp [useUser, hw, hne, hp]⟩

theorem C10_witness :
    useUser ⟨true, "loggedIn=false", []⟩ = Except.error ()
      ∨ ∃ j, useUser ⟨true, "loggedIn=false", []⟩ = Except.ok ⟨j, true⟩ :=
  (C10_cookie_truthiness "loggedIn=false" []).2 "false" rfl (by decide)
